import Mathlib

/-!
Verification of the http-light server (src/http-light.go).

The byte stream read from a connection is modelled as a `List Char`
(one `Char` per byte; end of list = end of stream).  The write side of a
connection is modelled by a function `Nat → Option Nat` giving, for each
successive write call, `none` when the write succeeds and `some e` when it
fails with underlying error `e`.  Fallible Go functions return a `PResult`;
a Go runtime panic (out-of-range slice) is the `panicked` outcome.
-/

set_option maxRecDepth 10000

namespace HttpLight

/-- Whitespace test of Go `unicode.IsSpace`, as used by `strings.TrimSpace`
(src/http-light.go lines 87 and 101): the ASCII space characters and the
Unicode white-space runes. -/
def goIsSpace (c : Char) : Bool :=
  c = ' ' || c = '\t' || c = '\x0A' || c = '\x0B' || c = '\x0C' || c = '\x0D' ||
  c = '\x85' || c = '\xA0' || c = '\u1680' ||
  ('\u2000' ≤ c && c ≤ '\u200A') ||
  c = '\u2028' || c = '\u2029' || c = '\u202F' || c = '\u205F' || c = '\u3000'

/-- Drop leading white space (helper for `trimSpace`). -/
def trimLeft : List Char → List Char
  | [] => []
  | c :: rest => if goIsSpace c then trimLeft rest else c :: rest

/-- Go `strings.TrimSpace`: drop leading and trailing white space. -/
def trimSpace (l : List Char) : List Char :=
  (trimLeft (trimLeft l).reverse).reverse

/-- Go `bufio.Reader.ReadString('\n')` (src/http-light.go lines 82 and 97):
read up to and including the first newline; `none` models the error return
when the stream ends before a newline is found (the partial data is
discarded by `parseRequest`, which returns the error). -/
def readStringNL : List Char → Option (List Char × List Char)
  | [] => none
  | c :: rest =>
    if c = '\n' then some ([c], rest)
    else
      match readStringNL rest with
      | none => none
      | some (line, rem) => some (c :: line, rem)

/-- Go `strings.Split(s, " ")` (src/http-light.go line 87): split on every
single space, keeping empty fields. -/
def splitOnSp : List Char → List (List Char)
  | [] => [[]]
  | c :: rest =>
    if c = ' ' then [] :: splitOnSp rest
    else
      match splitOnSp rest with
      | [] => [[c]]
      | t :: ts => (c :: t) :: ts

/-- Go `strings.SplitN(line, ": ", 2)` (src/http-light.go line 105): split at
the first occurrence of colon-space; `none` models the one-element result
(no occurrence), which `parseRequest` rejects as a malformed header line. -/
def splitFirst : List Char → Option (List Char × List Char)
  | [] => none
  | ':' :: ' ' :: rest => some ([], rest)
  | c :: rest =>
    match splitFirst rest with
    | none => none
    | some (a, b) => some (c :: a, b)

/-- Decimal digit accumulation for `atoi` (helper). -/
def digitsVal : List Char → Nat → Option Nat
  | [], acc => some acc
  | c :: rest, acc =>
    if c.isDigit then digitsVal rest (acc * 10 + (c.toNat - 48)) else none

/-- Go `strconv.Atoi` (src/http-light.go line 114): an optional sign, then at
least one ASCII digit, within the 64-bit int range; anything else is an
error (`none`). -/
def atoi (s : List Char) : Option Int :=
  let signAndDigits : Int × List Char :=
    match s with
    | '+' :: rest => (1, rest)
    | '-' :: rest => (-1, rest)
    | _ => (1, s)
  match signAndDigits.2 with
  | [] => none
  | ds =>
    match digitsVal ds 0 with
    | none => none
    | some n =>
      let v : Int := signAndDigits.1 * n
      if v < -(2 ^ 63) ∨ 2 ^ 63 - 1 < v then none else some v

/-- Go `map[string]string`, modelled as an association list without duplicate
keys; the list order stands for one arbitrary iteration order. -/
abbrev HeaderMap := List (String × String)

/-- Go map assignment `m[k] = v` (src/http-light.go line 109): overwrite the
binding of `k` when present, otherwise add it. -/
def mapSet (m : HeaderMap) (k v : String) : HeaderMap :=
  match m with
  | [] => [(k, v)]
  | (k0, v0) :: rest => if k0 = k then (k, v) :: rest else (k0, v0) :: mapSet rest k v

/-- Go map lookup `v, ok := m[k]` (src/http-light.go line 113). -/
def mapGet (m : HeaderMap) (k : String) : Option String :=
  match m with
  | [] => none
  | (k0, v0) :: rest => if k0 = k then some v0 else mapGet rest k

/-- Errors of `parseRequest`: the three protocol-syntax errors produced by
src/http-light.go lines 89, 107 and 116, and the propagated stream I/O
errors (lines 84, 99, 123). -/
inductive ParseError where
  | ioError
  | malformedRequestLine
  | malformedHeaderLine
  | invalidContentLength
deriving DecidableEq, Repr

/-- Outcome of running a fallible piece of the Go program: a value, an
error return, or a runtime panic. -/
inductive PResult (α : Type) where
  | ok : α → PResult α
  | err : ParseError → PResult α
  | panicked : PResult α
deriving DecidableEq, Repr

/-- Request structure of src/http-light.go lines 45-50. -/
structure Request where
  Method : String
  URL : String
  Headers : HeaderMap
  Body : String
deriving DecidableEq, Repr

/-- Response structure of src/http-light.go lines 52-56; `Headers` is listed
in its iteration order. -/
structure Response where
  StatusCode : Int
  Headers : HeaderMap
  Body : String
deriving DecidableEq, Repr

/-- Capacity of a pooled buffer: `make([]byte, 4096)` in src/http-light.go
line 17. -/
def bufferCapacity : Nat := 4096

/-- Result of the body-reading phase, with pool accounting: how many buffers
the phase took from the pool and how many it returned to it. -/
structure BodyRead where
  result : PResult String
  acquired : Nat
  released : Nat
deriving Repr

/-- Body phase of `parseRequest` (src/http-light.go lines 112-126).  When a
`Content-Length` header is present and parses, a pooled buffer is acquired
(line 118) and its return is deferred (line 119), so it is released on every
later exit, the panic included.  `bodyBuffer[:length]` (line 120) panics when
`length` is negative or exceeds the buffer capacity 4096.  `io.ReadFull`
(line 121) errors when the stream ends before `length` bytes are read; the
error is returned (line 123).  Otherwise the body is exactly those bytes. -/
def readBody (headers : HeaderMap) (s : List Char) : BodyRead :=
  match mapGet headers "Content-Length" with
  | none => ⟨.ok "", 0, 0⟩
  | some contentLength =>
    match atoi contentLength.data with
    | none => ⟨.err .invalidContentLength, 0, 0⟩
    | some length =>
      if length < 0 ∨ (bufferCapacity : Int) < length then ⟨.panicked, 1, 1⟩
      else if length.toNat ≤ s.length then
        ⟨.ok (String.mk (s.take length.toNat)), 1, 1⟩
      else ⟨.err .ioError, 1, 1⟩

/-- Header loop of `parseRequest` (src/http-light.go lines 95-110), written
with explicit fuel so that the recursion is structural; each iteration
consumes at least one character of the stream, so any fuel greater than the
stream length gives the loop's value (`parseHeaders` supplies it). -/
def parseHeadersFuel : Nat → List Char → HeaderMap → PResult (HeaderMap × List Char)
  | 0, _, _ => .err .ioError
  | fuel + 1, s, headers =>
    match readStringNL s with
    | none => .err .ioError
    | some (line, s1) =>
      let t := trimSpace line
      if t = [] then .ok (headers, s1)
      else
        match splitFirst t with
        | none => .err .malformedHeaderLine
        | some (k, v) => parseHeadersFuel fuel s1 (mapSet headers (String.mk k) (String.mk v))

/-- Header loop of `parseRequest` (src/http-light.go lines 95-110): read
lines until a line that is empty after trimming; each other line must split
at colon-space and is stored into the map, later keys overwriting. -/
def parseHeaders (s : List Char) (headers : HeaderMap) : PResult (HeaderMap × List Char) :=
  parseHeadersFuel (s.length + 1) s headers

/-- Continuation of `parseRequest` after the request line was split into
three tokens (src/http-light.go lines 92-133): parse the headers, read the
body, build the `Request`.  The protocol-version token is not passed in:
the source reads it but neither validates nor stores it. -/
def parseAfterRequestLine (method url : List Char) (s1 : List Char) : PResult Request :=
  match parseHeaders s1 [] with
  | .err e => .err e
  | .panicked => .panicked
  | .ok (headers, s2) =>
    match (readBody headers s2).result with
    | .err e => .err e
    | .panicked => .panicked
    | .ok body => .ok ⟨String.mk method, String.mk url, headers, body⟩

/-- Go `parseRequest` (src/http-light.go lines 80-134) over the modelled
input stream. -/
def parseRequest (s : List Char) : PResult Request :=
  match readStringNL s with
  | none => .err .ioError
  | some (requestLine, s1) =>
    match splitOnSp (trimSpace requestLine) with
    | [method, url, _version] => parseAfterRequestLine method url s1
    | _ => .err .malformedRequestLine

/-- Go `handleRoot` (src/http-light.go lines 153-161). -/
def handleRoot (_req : Request) : Response :=
  ⟨200, [("Content-Type", "text/plain")], "Welcome to the root page!"⟩

/-- Go `handleHello` (src/http-light.go lines 163-175): `req.Headers["Name"]`
yields the empty string when the key is absent; an empty name becomes
"World". -/
def handleHello (req : Request) : Response :=
  let name := (mapGet req.Headers "Name").getD ""
  let name := if name = "" then "World" else name
  ⟨200, [("Content-Type", "text/plain")], "Hello, " ++ name ++ "!"⟩

/-- Go `handleRequest` (src/http-light.go lines 136-151): dispatch on the
URL. -/
def handleRequest (req : Request) : Response :=
  if req.URL = "/" then handleRoot req
  else if req.URL = "/hello" then handleHello req
  else ⟨404, [("Content-Type", "text/plain")], "404 Not Found"⟩

/-- Go `statusText` (src/http-light.go lines 215-228). -/
def statusText (statusCode : Int) : String :=
  if statusCode = 200 then "OK"
  else if statusCode = 400 then "Bad Request"
  else if statusCode = 404 then "Not Found"
  else if statusCode = 500 then "Internal Server Error"
  else "Unknown Status"

/-- Status line built by `writeResponse` (src/http-light.go line 178). -/
def statusLine (res : Response) : String :=
  "HTTP/1.1 " ++ toString res.StatusCode ++ " " ++ statusText res.StatusCode ++ "\r\n"

/-- The successive chunks `writeResponse` hands to `conn.Write`
(src/http-light.go lines 178-198): the status line, one line per header in
iteration order, the blank line, and the raw body. -/
def responseChunks (res : Response) : List String :=
  statusLine res :: (res.Headers.map fun p => p.1 ++ ": " ++ p.2 ++ "\r\n") ++ ["\r\n", res.Body]

/-- Write a list of chunks with sequential `conn.Write` calls, starting at
write index `i` of the connection's outcome function `f`: stop at the first
failing write and return its error; the first component is what actually
reached the stream. -/
def writeChunks (f : Nat → Option Nat) : Nat → List String → List Char × Option Nat
  | _, [] => ([], none)
  | i, c :: cs =>
    match f i with
    | some e => ([], some e)
    | none =>
      let r := writeChunks f (i + 1) cs
      (c.data ++ r.1, r.2)

/-- Go `writeResponse` (src/http-light.go lines 177-199): sequentially write
the response chunks, aborting at the first failed write. -/
def writeResponse (f : Nat → Option Nat) (res : Response) : List Char × Option Nat :=
  writeChunks f 0 (responseChunks res)

/-- Go `writeErrorResponse` (src/http-light.go lines 201-213). -/
def writeErrorResponse (f : Nat → Option Nat) (statusCode : Int) (message : String) :
    List Char × Option Nat :=
  writeResponse f ⟨statusCode, [("Content-Type", "text/plain")], message⟩

/-- Go `handleConnection` (src/http-light.go lines 58-78): parse; on any
parse error write a 400 response; on success dispatch and write the
handler's response.  The value is the bytes that reached the stream; a
panic in parsing propagates (no bytes written by this function). -/
def handleConnection (input : List Char) (f : Nat → Option Nat) : PResult (List Char) :=
  match parseRequest input with
  | .panicked => .panicked
  | .err _ => .ok (writeErrorResponse f 400 "Bad Request").1
  | .ok req => .ok (writeResponse f (handleRequest req)).1

/-- A write side on which every write succeeds. -/
def okStream : Nat → Option Nat := fun _ => none

/-- The last value bound to key `k` by a sequence of header writes, `none`
when `k` is never written: the specification's description of the
last-write-wins map contents. -/
def lastValue (pairs : List (String × String)) (k : String) : Option String :=
  pairs.foldl (fun r p => if p.1 = k then some p.2 else r) none

/-- Wire encoding of one header line with key `k` and value `v`, newline
included. -/
def headerLineEnc (p : String × String) : List Char :=
  p.1.data ++ ':' :: ' ' :: p.2.data ++ ['\n']

/-- Wire encoding of a header section (without the terminating blank
line). -/
def encodeHeaders (pairs : List (String × String)) : List Char :=
  (pairs.map headerLineEnc).flatten

/-- A header pair whose encoded line the parser reads back exactly: its
line contains no newline, survives trimming unchanged, and splits at the
separator into exactly the original key and value. -/
abbrev goodPair (p : String × String) : Prop :=
  '\n' ∉ p.1.data ∧ '\n' ∉ p.2.data ∧
  trimSpace (p.1.data ++ ':' :: ' ' :: p.2.data) = p.1.data ++ ':' :: ' ' :: p.2.data ∧
  splitFirst (p.1.data ++ ':' :: ' ' :: p.2.data) = some (p.1.data, p.2.data)

theorem readStringNL_append (l rest : List Char) (hl : '\n' ∉ l) :
    readStringNL (l ++ '\n' :: rest) = some (l ++ ['\n'], rest) := by
  induction l with
  | nil => simp [readStringNL]
  | cons c l ih =>
    have hc : c ≠ '\n' := fun h => hl (by simp [h])
    have hl2 : '\n' ∉ l := fun h => hl (by simp [h])
    simp [readStringNL, hc, ih hl2]

theorem readStringNL_length {s line s1 : List Char}
    (h : readStringNL s = some (line, s1)) : s1.length < s.length := by
  induction s generalizing line s1 with
  | nil => simp [readStringNL] at h
  | cons c rest ih =>
    by_cases hc : c = '\n'
    · simp only [readStringNL, if_pos hc, Option.some.injEq, Prod.mk.injEq] at h
      rw [← h.2]
      simp
    · simp only [readStringNL, if_neg hc] at h
      cases hr : readStringNL rest with
      | none => rw [hr] at h; simp at h
      | some p =>
        obtain ⟨line2, rem⟩ := p
        rw [hr] at h
        simp only [Option.some.injEq, Prod.mk.injEq] at h
        have hlt := ih hr
        rw [← h.2]
        simp only [List.length_cons]
        omega

theorem trimLeft_all_space {l : List Char} (h : ∀ c ∈ l, goIsSpace c) :
    trimLeft l = [] := by
  induction l with
  | nil => rfl
  | cons c rest ih =>
    simp only [trimLeft, h c (by simp)]
    exact ih fun d hd => h d (by simp [hd])

theorem trimLeft_eq_nil_iff {l : List Char} :
    trimLeft l = [] ↔ ∀ c ∈ l, goIsSpace c := by
  constructor
  · intro h
    induction l with
    | nil => simp
    | cons c rest ih =>
      by_cases hc : goIsSpace c
      · simp only [trimLeft, if_pos hc] at h
        intro d hd
        rcases List.mem_cons.mp hd with h1 | h2
        · rw [h1]; exact hc
        · exact ih h d h2
      · simp [trimLeft, hc] at h
  · exact trimLeft_all_space

theorem trimLeft_append_space {p : List Char} (x : List Char)
    (h : ∀ c ∈ p, goIsSpace c) : trimLeft (p ++ x) = trimLeft x := by
  induction p with
  | nil => rfl
  | cons c rest ih =>
    simp only [List.cons_append, trimLeft, h c (by simp)]
    exact ih fun d hd => h d (by simp [hd])

theorem trimLeft_append_ne {x : List Char} (y : List Char)
    (h : trimLeft x ≠ []) : trimLeft (x ++ y) = trimLeft x ++ y := by
  induction x with
  | nil => simp [trimLeft] at h
  | cons c rest ih =>
    by_cases hc : goIsSpace c
    · simp only [trimLeft, if_pos hc] at h ⊢
      simpa [trimLeft, hc] using ih h
    · simp [trimLeft, hc]

theorem trimSpace_pad (p1 x p2 : List Char)
    (h1 : ∀ c ∈ p1, goIsSpace c) (h2 : ∀ c ∈ p2, goIsSpace c) :
    trimSpace (p1 ++ (x ++ p2)) = trimSpace x := by
  unfold trimSpace
  rw [trimLeft_append_space _ h1]
  by_cases hx : trimLeft x = []
  · have hall : ∀ c ∈ x ++ p2, goIsSpace c := by
      intro c hc
      rcases List.mem_append.mp hc with h | h
      · exact trimLeft_eq_nil_iff.mp hx c h
      · exact h2 c h
    rw [trimLeft_all_space hall, hx]
  · rw [trimLeft_append_ne _ hx, List.reverse_append,
      trimLeft_append_space _ (by intro c hc; exact h2 c (List.mem_reverse.mp hc))]

theorem trimSpace_append_nl (l : List Char) :
    trimSpace (l ++ ['\n']) = trimSpace l := by
  have := trimSpace_pad [] l ['\n'] (by simp) (by intro c hc; simp at hc; simp [hc, goIsSpace])
  simpa using this

theorem parseHeadersFuel_irrel :
    ∀ (f1 f2 : Nat) (s : List Char) (headers : HeaderMap),
      s.length < f1 → s.length < f2 →
      parseHeadersFuel f1 s headers = parseHeadersFuel f2 s headers := by
  intro f1
  induction f1 with
  | zero => intro f2 s headers h1 h2; exact absurd h1 (Nat.not_lt_zero _)
  | succ f ih =>
    intro f2 s headers h1 h2
    cases f2 with
    | zero => exact absurd h2 (Nat.not_lt_zero _)
    | succ g =>
      simp only [parseHeadersFuel]
      cases hr : readStringNL s with
      | none => rfl
      | some p =>
        obtain ⟨line, s1⟩ := p
        have hlen := readStringNL_length hr
        simp only []
        by_cases ht : trimSpace line = []
        · simp [ht]
        · simp only [ht, if_neg ht]
          cases splitFirst (trimSpace line) with
          | none => rfl
          | some kv =>
            obtain ⟨k, v⟩ := kv
            exact ih g s1 _ (by omega) (by omega)

theorem parseHeaders_cons_empty (l rest : List Char) (acc : HeaderMap)
    (hl : '\n' ∉ l) (ht : trimSpace l = []) :
    parseHeaders (l ++ '\n' :: rest) acc = .ok (acc, rest) := by
  unfold parseHeaders
  simp only [parseHeadersFuel, readStringNL_append l rest hl, trimSpace_append_nl, ht]
  simp

theorem parseHeaders_cons_bad (l rest : List Char) (acc : HeaderMap)
    (hl : '\n' ∉ l) (ht : trimSpace l ≠ []) (hs : splitFirst (trimSpace l) = none) :
    parseHeaders (l ++ '\n' :: rest) acc = .err .malformedHeaderLine := by
  unfold parseHeaders
  simp only [parseHeadersFuel, readStringNL_append l rest hl, trimSpace_append_nl, ht,
    if_neg ht, hs]
  simp

theorem parseHeaders_cons_kv (l rest : List Char) (acc : HeaderMap) (k v : List Char)
    (hl : '\n' ∉ l) (ht : trimSpace l ≠ []) (hs : splitFirst (trimSpace l) = some (k, v)) :
    parseHeaders (l ++ '\n' :: rest) acc =
      parseHeaders rest (mapSet acc (String.mk k) (String.mk v)) := by
  unfold parseHeaders
  simp only [parseHeadersFuel, readStringNL_append l rest hl, trimSpace_append_nl, ht,
    if_neg ht, hs]
  have h1 : rest.length < (l ++ '\n' :: rest).length := by
    simp only [List.length_append, List.length_cons]
    omega
  have h2 : rest.length < rest.length + 1 := Nat.lt_succ_self _
  exact parseHeadersFuel_irrel ((l ++ '\n' :: rest).length) (rest.length + 1) rest
    (mapSet acc (String.mk k) (String.mk v)) h1 h2

theorem parseRequest_cons_ne3 (l rest : List Char) (hl : '\n' ∉ l)
    (h3 : (splitOnSp (trimSpace l)).length ≠ 3) :
    parseRequest (l ++ '\n' :: rest) = .err .malformedRequestLine := by
  unfold parseRequest
  rw [readStringNL_append l rest hl]
  simp only [trimSpace_append_nl]
  rcases hp : splitOnSp (trimSpace l) with _ | ⟨a, _ | ⟨b, _ | ⟨c, _ | d⟩⟩⟩ <;>
    simp [hp] at h3 ⊢

theorem parseRequest_cons_eq3 (l rest : List Char) (method url ver : List Char)
    (hl : '\n' ∉ l) (h3 : splitOnSp (trimSpace l) = [method, url, ver]) :
    parseRequest (l ++ '\n' :: rest) = parseAfterRequestLine method url rest := by
  unfold parseRequest
  rw [readStringNL_append l rest hl]
  simp only [trimSpace_append_nl, h3]

theorem mapGet_mapSet (m : HeaderMap) (k v k2 : String) :
    mapGet (mapSet m k v) k2 = if k = k2 then some v else mapGet m k2 := by
  induction m with
  | nil => simp [mapSet, mapGet]
  | cons p rest ih =>
    obtain ⟨k0, v0⟩ := p
    by_cases h0 : k0 = k
    · by_cases h2 : k = k2 <;> simp [mapSet, mapGet, h0, h2]
    · by_cases h2 : k0 = k2
      · have hk : ¬k = k2 := fun h => h0 (h2.trans h.symm)
        have hk2 : ¬k2 = k := fun h => hk h.symm
        simp [mapSet, mapGet, h0, h2, hk, hk2]
      · simp [mapSet, mapGet, h0, h2, ih]

theorem foldl_lastValue_acc (pairs : List (String × String)) (k : String)
    (acc : Option String) :
    pairs.foldl (fun r p => if p.1 = k then some p.2 else r) acc =
      match lastValue pairs k with
      | some v => some v
      | none => acc := by
  induction pairs generalizing acc with
  | nil => simp [lastValue]
  | cons q rest ih =>
    show rest.foldl _ (if q.1 = k then some q.2 else acc) = _
    rw [ih]
    have hq : lastValue (q :: rest) k =
        match lastValue rest k with
        | some v => some v
        | none => if q.1 = k then some q.2 else none := by
      show rest.foldl _ (if q.1 = k then some q.2 else none) = _
      rw [ih]
    rw [hq]
    cases lastValue rest k with
    | some v => rfl
    | none => by_cases h : q.1 = k <;> simp [h]

theorem mapGet_foldl_mapSet (pairs : List (String × String)) (m : HeaderMap) (k : String) :
    mapGet (pairs.foldl (fun acc p => mapSet acc p.1 p.2) m) k =
      match lastValue pairs k with
      | some v => some v
      | none => mapGet m k := by
  induction pairs generalizing m with
  | nil => simp [lastValue]
  | cons p rest ih =>
    show mapGet (rest.foldl _ (mapSet m p.1 p.2)) k = _
    rw [ih]
    have hl : lastValue (p :: rest) k =
        match lastValue rest k with
        | some v => some v
        | none => if p.1 = k then some p.2 else none := by
      show rest.foldl _ (if p.1 = k then some p.2 else none) = _
      rw [foldl_lastValue_acc]
    rw [hl]
    cases lastValue rest k with
    | some v => rfl
    | none =>
      rw [mapGet_mapSet]
      by_cases h : p.1 = k <;> simp [h]

theorem writeChunks_all_ok (f : Nat → Option Nat) (cs : List String) (i : Nat)
    (h : ∀ j, j < cs.length → f (i + j) = none) :
    writeChunks f i cs = ((cs.map String.data).flatten, none) := by
  induction cs generalizing i with
  | nil => simp [writeChunks]
  | cons c rest ih =>
    have h0 : f i = none := by simpa using h 0 (by simp)
    simp only [writeChunks, h0]
    rw [ih (i + 1) fun j hj => by
      have := h (j + 1) (by simp; omega)
      simpa [Nat.add_assoc, Nat.add_comm 1 j] using this]
    simp

theorem writeChunks_fail (f : Nat → Option Nat) (cs : List String) (i k : Nat) (e : Nat)
    (hk : k < cs.length) (hf : f (i + k) = some e) (hbefore : ∀ j, j < k → f (i + j) = none) :
    writeChunks f i cs = (((cs.take k).map String.data).flatten, some e) := by
  induction cs generalizing i k with
  | nil => simp at hk
  | cons c rest ih =>
    cases k with
    | zero =>
      simp only [Nat.add_zero] at hf
      simp [writeChunks, hf]
    | succ k0 =>
      have h0 : f i = none := by simpa using hbefore 0 (by omega)
      simp only [writeChunks, h0]
      rw [ih (i + 1) k0 (by simpa using hk)
        (by simpa [Nat.add_assoc, Nat.add_comm 1 k0] using hf)
        (fun j hj => by
          have := hbefore (j + 1) (by omega)
          simpa [Nat.add_assoc, Nat.add_comm 1 j] using this)]
      simp

theorem writeChunks_ok_all (f : Nat → Option Nat) (cs : List String) (i : Nat)
    (h : (writeChunks f i cs).2 = none) : ∀ j, j < cs.length → f (i + j) = none := by
  induction cs generalizing i with
  | nil => simp
  | cons c rest ih =>
    intro j hj
    cases hfi : f i with
    | some e => simp [writeChunks, hfi] at h
    | none =>
      simp only [writeChunks, hfi] at h
      cases j with
      | zero => simpa using hfi
      | succ j0 =>
        have := ih (i + 1) h j0 (by simpa using hj)
        simpa [Nat.add_assoc, Nat.add_comm 1 j0] using this

/-- C1 (corrected, amended part): for every request whose headers carry a
`Content-Length` that parses as a non-negative integer `L` with
`L ≤ 4096`, `parseRequest` reads exactly the first `L` bytes of the
remaining stream as the body, and a stream that ends before `L` bytes are
available yields the stream I/O error, never a `Request` with a truncated
body; when `L` exceeds the pooled buffer capacity 4096 the slice of the
pooled buffer is out of range and `parseRequest` panics instead. -/
theorem parseRequest_reads_exact_body
    (s requestLine s1 method url ver s2 : List Char) (headers : HeaderMap)
    (v : String) (L : Nat)
    (h1 : readStringNL s = some (requestLine, s1))
    (h2 : splitOnSp (trimSpace requestLine) = [method, url, ver])
    (h3 : parseHeaders s1 [] = .ok (headers, s2))
    (h4 : mapGet headers "Content-Length" = some v)
    (h5 : atoi v.data = some (L : Int)) :
    parseRequest s =
      if L ≤ 4096 then
        if L ≤ s2.length then
          .ok ⟨String.mk method, String.mk url, headers, String.mk (s2.take L)⟩
        else .err .ioError
      else .panicked := by
  simp only [parseRequest, h1, h2, parseAfterRequestLine, h3, readBody, h4, h5]
  by_cases hL : L ≤ 4096
  · have hcond : ¬((L : Int) < 0 ∨ (bufferCapacity : Int) < (L : Int)) := by
      simp only [bufferCapacity]
      push_cast
      omega
    simp only [if_neg hcond, Int.toNat_natCast, if_pos hL]
    by_cases hlen : L ≤ s2.length
    · simp [hlen]
    · simp [hlen]
  · have hgt : bufferCapacity < L := by
      simp only [bufferCapacity]
      omega
    have hcond : (L : Int) < 0 ∨ (bufferCapacity : Int) < (L : Int) := by
      right
      exact_mod_cast hgt
    simp [hcond, hgt, hL]

/-- C1 (corrected, counterexample): a declared `Content-Length` of 4097,
one more than the pooled buffer capacity, makes `parseRequest` panic
(out-of-range slice of the pooled buffer) rather than read 4097 body
bytes. -/
theorem parseRequest_over_capacity_panics :
    parseRequest "POST / HTTP/1.1\nContent-Length: 4097\n\n".data = .panicked := by
  decide

/-- C1 (witness): with `Content-Length: 5` and five available body bytes
the parser returns the five bytes as the body; with the same header and an
empty remaining stream it returns the stream I/O error. -/
theorem parseRequest_reads_exact_body_witness :
    parseRequest "POST / HTTP/1.1\nContent-Length: 5\n\nHELLOworld".data =
      .ok ⟨"POST", "/", [("Content-Length", "5")], "HELLO"⟩ := by
  have := parseRequest_reads_exact_body
    "POST / HTTP/1.1\nContent-Length: 5\n\nHELLOworld".data
    "POST / HTTP/1.1\n".data "Content-Length: 5\n\nHELLOworld".data
    "POST".data "/".data "HTTP/1.1".data "HELLOworld".data
    [("Content-Length", "5")] "5" 5
    (by decide) (by decide) (by decide) (by decide) (by decide)
  exact this.trans (by decide)

/-- C2 (code bug): a non-numeric `Content-Length` of `"abc"` does yield the
`InvalidContentLength` error, but a negative numeric value of `"-1"` is
accepted by `strconv.Atoi` and then panics at the out-of-range slice
`bodyBuffer[:-1]`, instead of yielding `InvalidContentLength` without a
panic as the claim states. -/
theorem parseRequest_contentLength_abc_and_negative :
    parseRequest "GET / HTTP/1.1\nContent-Length: abc\n\n".data = .err .invalidContentLength ∧
    parseRequest "GET / HTTP/1.1\nContent-Length: -1\n\n".data = .panicked := by
  constructor <;> decide

/-- C8 (confirmed): on every run of the body phase that acquires a pooled
buffer, that is, whenever a `Content-Length` header is present and
`strconv.Atoi` accepts its value, exactly one buffer is acquired and it is
released exactly once, on every exit path: the successful read, the short
read, and the out-of-range panic alike. -/
theorem readBody_releases_acquired_buffer (headers : HeaderMap) (s : List Char)
    (v : String) (L : Int)
    (h1 : mapGet headers "Content-Length" = some v)
    (h2 : atoi v.data = some L) :
    (readBody headers s).acquired = 1 ∧ (readBody headers s).released = 1 := by
  simp only [readBody, h1, h2]
  by_cases hc : L < 0 ∨ (bufferCapacity : Int) < L
  · simp [hc]
  · simp only [if_neg hc]
    by_cases hl : L.toNat ≤ s.length <;> simp [hl]

/-- C8 (witness): a short read - `Content-Length: 5` against an empty
remaining stream - still releases the one acquired buffer. -/
theorem readBody_releases_acquired_buffer_witness :
    (readBody [("Content-Length", "5")] []).acquired = 1 ∧
    (readBody [("Content-Length", "5")] []).released = 1 :=
  readBody_releases_acquired_buffer [("Content-Length", "5")] [] "5" 5
    (by decide) (by decide)

/-- C9 (confirmed): a request dispatched to the `/hello` route yields a 200
response with body `"Hello, World!"` when the `Name` header is absent or
empty, and `"Hello, <value>!"` otherwise. -/
theorem handleRequest_hello (req : Request) (h : req.URL = "/hello") :
    ((mapGet req.Headers "Name" = none ∨ mapGet req.Headers "Name" = some "") →
       handleRequest req = ⟨200, [("Content-Type", "text/plain")], "Hello, World!"⟩) ∧
    (∀ v, mapGet req.Headers "Name" = some v → v ≠ "" →
       handleRequest req = ⟨200, [("Content-Type", "text/plain")], "Hello, " ++ v ++ "!"⟩) := by
  have hroot : req.URL ≠ "/" := by rw [h]; decide
  constructor
  · intro hname
    unfold handleRequest
    rw [if_neg hroot, if_pos h]
    unfold handleHello
    rcases hname with h1 | h1 <;> simp [h1]
  · intro v hv hne
    unfold handleRequest
    rw [if_neg hroot, if_pos h]
    unfold handleHello
    simp [hv, hne]

/-- C9 (witness): `/hello` with no headers answers `"Hello, World!"`;
`/hello` with `Name: Go` answers `"Hello, Go!"`. -/
theorem handleRequest_hello_witness :
    handleRequest ⟨"GET", "/hello", [], ""⟩ =
      ⟨200, [("Content-Type", "text/plain")], "Hello, World!"⟩ ∧
    handleRequest ⟨"GET", "/hello", [("Name", "Go")], ""⟩ =
      ⟨200, [("Content-Type", "text/plain")], "Hello, Go!"⟩ := by
  constructor
  · exact (handleRequest_hello _ rfl).1 (Or.inl rfl)
  · exact ((handleRequest_hello _ rfl).2 "Go" (by decide) (by decide)).trans (by decide)

theorem trimSpace_all_space {ws : List Char} (h : ∀ c ∈ ws, goIsSpace c) :
    trimSpace ws = [] := by
  unfold trimSpace
  rw [trimLeft_all_space h]
  simp [trimLeft]

theorem parseRequest_trim_congr (l1 l2 rest : List Char) (h1 : '\n' ∉ l1) (h2 : '\n' ∉ l2)
    (ht : trimSpace l1 = trimSpace l2) :
    parseRequest (l1 ++ '\n' :: rest) = parseRequest (l2 ++ '\n' :: rest) := by
  unfold parseRequest
  rw [readStringNL_append l1 rest h1, readStringNL_append l2 rest h2]
  simp only [trimSpace_append_nl, ht]

theorem parseHeaders_trim_congr (l1 l2 rest : List Char) (acc : HeaderMap)
    (h1 : '\n' ∉ l1) (h2 : '\n' ∉ l2) (ht : trimSpace l1 = trimSpace l2) :
    parseHeaders (l1 ++ '\n' :: rest) acc = parseHeaders (l2 ++ '\n' :: rest) acc := by
  by_cases he : trimSpace l1 = []
  · rw [parseHeaders_cons_empty l1 rest acc h1 he,
      parseHeaders_cons_empty l2 rest acc h2 (by rw [← ht]; exact he)]
  · have he2 : trimSpace l2 ≠ [] := by rw [← ht]; exact he
    cases hs : splitFirst (trimSpace l1) with
    | none =>
      rw [parseHeaders_cons_bad l1 rest acc h1 he hs,
        parseHeaders_cons_bad l2 rest acc h2 he2 (by rw [← ht]; exact hs)]
    | some kv =>
      obtain ⟨k, v⟩ := kv
      rw [parseHeaders_cons_kv l1 rest acc k v h1 he hs,
        parseHeaders_cons_kv l2 rest acc k v h2 he2 (by rw [← ht]; exact hs)]

theorem parseHeaders_encode_cons (p : String × String) (pairs : List (String × String))
    (tail : List Char) (acc : HeaderMap) (hp : goodPair p) :
    parseHeaders (encodeHeaders (p :: pairs) ++ tail) acc =
      parseHeaders (encodeHeaders pairs ++ tail) (mapSet acc p.1 p.2) := by
  obtain ⟨hk, hv, htrim, hsplit⟩ := hp
  have hcore : '\n' ∉ p.1.data ++ ':' :: ' ' :: p.2.data := by
    intro hmem
    rcases List.mem_append.mp hmem with h | h
    · exact hk h
    · rcases List.mem_cons.mp h with h1 | h1
      · exact absurd h1 (by decide)
      · rcases List.mem_cons.mp h1 with h2 | h2
        · exact absurd h2 (by decide)
        · exact hv h2
  have hne : p.1.data ++ ':' :: ' ' :: p.2.data ≠ [] := by simp
  have hstream : encodeHeaders (p :: pairs) ++ tail =
      (p.1.data ++ ':' :: ' ' :: p.2.data) ++ '\n' :: (encodeHeaders pairs ++ tail) := by
    simp [encodeHeaders, headerLineEnc, List.append_assoc]
  rw [hstream, parseHeaders_cons_kv _ _ acc p.1.data p.2.data hcore
    (by rw [htrim]; exact hne) (by rw [htrim]; exact hsplit)]

/-- C3 (corrected, amended part): `handleConnection` maps every parse
error, the stream I/O errors included, to an attempt to write the fixed
`400 Bad Request` response, and then closes the connection. -/
theorem handleConnection_all_errors_get_400 (input : List Char) (f : Nat → Option Nat)
    (e : ParseError) (h : parseRequest input = .err e) :
    handleConnection input f =
      .ok (writeResponse f ⟨400, [("Content-Type", "text/plain")], "Bad Request"⟩).1 := by
  simp only [handleConnection, h, writeErrorResponse]

/-- C3 (corrected, counterexample): the stream `"GET"` ends before a full
request line is available, a stream I/O error - yet `handleConnection`
writes a complete `400 Bad Request` response instead of closing the
connection without a response attempt. -/
theorem handleConnection_io_error_writes_400 :
    parseRequest "GET".data = .err .ioError ∧
    handleConnection "GET".data okStream =
      .ok "HTTP/1.1 400 Bad Request\r\nContent-Type: text/plain\r\n\r\nBad Request".data := by
  constructor <;> decide

/-- C3 (witness): the amended theorem applied to the one-byte stream
`"G"`, which also ends before a newline. -/
theorem handleConnection_all_errors_get_400_witness :
    handleConnection ['G'] okStream =
      .ok (writeResponse okStream ⟨400, [("Content-Type", "text/plain")], "Bad Request"⟩).1 :=
  handleConnection_all_errors_get_400 ['G'] okStream .ioError (by decide)

/-- C4 (confirmed): on a stream whose writes all succeed, the serializer
emits exactly the status line (with the reason looked up from the closed
map, any unlisted code giving "Unknown Status"), then one line per header
entry in iteration order, then a blank line, then the raw body bytes with
nothing after them, and it adds no header the handler did not set. -/
theorem writeResponse_wire_format :
    (∀ res : Response,
       writeResponse okStream res =
         (("HTTP/1.1 " ++ toString res.StatusCode ++ " " ++ statusText res.StatusCode ++
             "\r\n").data ++
           ((res.Headers.map fun p => (p.1 ++ ": " ++ p.2 ++ "\r\n").data).flatten ++
             ('\r' :: '\n' :: res.Body.data)), none)) ∧
    statusText 200 = "OK" ∧ statusText 400 = "Bad Request" ∧
    statusText 404 = "Not Found" ∧ statusText 500 = "Internal Server Error" ∧
    (∀ c : Int, c ≠ 200 → c ≠ 400 → c ≠ 404 → c ≠ 500 →
       statusText c = "Unknown Status") := by
  refine ⟨fun res => ?_, by decide, by decide, by decide, by decide,
    fun c h1 h2 h3 h4 => ?_⟩
  · rw [writeResponse, writeChunks_all_ok okStream _ 0 (fun j hj => rfl)]
    simp only [responseChunks, statusLine, List.map_cons, List.map_append, List.map_map,
      List.flatten_cons, List.flatten_append, List.flatten_nil, List.append_nil,
      Function.comp_def]
    have hcrlf : "\r\n".data = ['\r', '\n'] := by decide
    simp [hcrlf, List.append_assoc]
  · simp [statusText, h1, h2, h3, h4]

/-- C4 (witness): the round-trip example - status 200, one `Content-Type`
header, body `"Hello, Go!"` - serializes to exactly the expected bytes, and
the unlisted code 201 maps to "Unknown Status". -/
theorem writeResponse_wire_format_witness :
    writeResponse okStream ⟨200, [("Content-Type", "text/plain")], "Hello, Go!"⟩ =
      ("HTTP/1.1 200 OK\r\nContent-Type: text/plain\r\n\r\nHello, Go!".data, none) ∧
    statusText 201 = "Unknown Status" := by
  constructor
  · exact (writeResponse_wire_format.1
      ⟨200, [("Content-Type", "text/plain")], "Hello, Go!"⟩).trans (by decide)
  · exact writeResponse_wire_format.2.2.2.2.2 201
      (by decide) (by decide) (by decide) (by decide)

/-- C7 (confirmed): if the write of chunk `k` is the first to fail, the
serializer writes exactly the chunks before `k` and returns that write's
underlying error, performing no further writes; the result is `Ok` exactly
when every chunk's write succeeded, in which case the full serialization
reached the stream. -/
theorem writeResponse_aborts_on_failure (res : Response) (f : Nat → Option Nat) :
    (∀ k e, k < (responseChunks res).length → f k = some e → (∀ j, j < k → f j = none) →
       writeResponse f res = ((((responseChunks res).take k).map String.data).flatten, some e)) ∧
    ((writeResponse f res).2 = none ↔ ∀ j, j < (responseChunks res).length → f j = none) ∧
    ((writeResponse f res).2 = none →
       writeResponse f res = (((responseChunks res).map String.data).flatten, none)) := by
  refine ⟨?_, ⟨?_, ?_⟩, ?_⟩
  · intro k e hk hf hb
    have := writeChunks_fail f (responseChunks res) 0 k e hk
      (by simpa using hf) (fun j hj => by simpa using hb j hj)
    simpa [writeResponse] using this
  · intro h j hj
    have := writeChunks_ok_all f (responseChunks res) 0 (by simpa [writeResponse] using h) j hj
    simpa using this
  · intro h
    have := writeChunks_all_ok f (responseChunks res) 0 (fun j hj => by simpa using h j hj)
    rw [writeResponse, this]
  · intro h
    have hall : ∀ j, j < (responseChunks res).length → f j = none := fun j hj => by
      have := writeChunks_ok_all f (responseChunks res) 0
        (by simpa [writeResponse] using h) j hj
      simpa using this
    have := writeChunks_all_ok f (responseChunks res) 0 (fun j hj => by simpa using hall j hj)
    rw [writeResponse, this]

/-- C7 (witness): with a stream whose second write (the header line) fails
with error 42, the serializer emits exactly the status line and returns
error 42. -/
theorem writeResponse_aborts_on_failure_witness :
    writeResponse (fun k => if k = 1 then some 42 else none)
        ⟨200, [("Content-Type", "text/plain")], "Hello, Go!"⟩ =
      ("HTTP/1.1 200 OK\r\n".data, some 42) := by
  have := (writeResponse_aborts_on_failure
      ⟨200, [("Content-Type", "text/plain")], "Hello, Go!"⟩
      (fun k => if k = 1 then some 42 else none)).1 1 42
    (by decide) (by decide)
    (fun j hj => by
      have hj0 : j = 0 := by omega
      rw [hj0]
      decide)
  exact this.trans (by decide)

/-- C5 (confirmed): well-formed header lines are stored into the map by a
left fold of last-write-wins updates, so the parsed map holds exactly the
last value written for any repeated key; a non-empty header line with no
colon-space separator aborts parsing with `MalformedHeaderLine`, so no
parsed `Request` carries an entry from a malformed line. -/
theorem parseHeaders_header_lines :
    (∀ (pairs : List (String × String)) (rest : List Char) (acc : HeaderMap),
       (∀ p ∈ pairs, goodPair p) →
       parseHeaders (encodeHeaders pairs ++ '\n' :: rest) acc =
         .ok (pairs.foldl (fun m p => mapSet m p.1 p.2) acc, rest)) ∧
    (∀ (pairs : List (String × String)) (k : String),
       mapGet (pairs.foldl (fun m p => mapSet m p.1 p.2) []) k = lastValue pairs k) ∧
    (∀ (pairs : List (String × String)) (bad rest : List Char) (acc : HeaderMap),
       (∀ p ∈ pairs, goodPair p) → '\n' ∉ bad → trimSpace bad ≠ [] →
       splitFirst (trimSpace bad) = none →
       parseHeaders (encodeHeaders pairs ++ bad ++ '\n' :: rest) acc =
         .err .malformedHeaderLine) := by
  refine ⟨?_, ?_, ?_⟩
  · intro pairs
    induction pairs with
    | nil =>
      intro rest acc hwf
      have := parseHeaders_cons_empty [] rest acc (by simp) rfl
      simpa [encodeHeaders] using this
    | cons p ps ih =>
      intro rest acc hwf
      rw [parseHeaders_encode_cons p ps ('\n' :: rest) acc (hwf p (by simp))]
      rw [ih rest (mapSet acc p.1 p.2) (fun q hq => hwf q (by simp [hq]))]
      rfl
  · intro pairs k
    rcases hlv : lastValue pairs k with _ | v
    · rw [mapGet_foldl_mapSet, hlv]
      rfl
    · rw [mapGet_foldl_mapSet, hlv]
  · intro pairs
    induction pairs with
    | nil =>
      intro bad rest acc hwf hb ht hs
      have heq : encodeHeaders ([] : List (String × String)) ++ bad ++ '\n' :: rest =
          bad ++ '\n' :: rest := by
        simp [encodeHeaders]
      rw [heq, parseHeaders_cons_bad bad rest acc hb ht hs]
    | cons p ps ih =>
      intro bad rest acc hwf hb ht hs
      have hstream : encodeHeaders (p :: ps) ++ bad ++ '\n' :: rest =
          encodeHeaders (p :: ps) ++ (bad ++ '\n' :: rest) := by
        simp [List.append_assoc]
      rw [hstream, parseHeaders_encode_cons p ps _ acc (hwf p (by simp))]
      have hihs : encodeHeaders ps ++ bad ++ '\n' :: rest =
          encodeHeaders ps ++ (bad ++ '\n' :: rest) := by
        simp [List.append_assoc]
      have := ih bad rest (mapSet acc p.1 p.2) (fun q hq => hwf q (by simp [hq])) hb ht hs
      rw [hihs] at this
      exact this

/-- C5 (witness): the header lines `A: 1`, `B: 2`, `A: 3` parse to a map in
which `A` holds the last-written `3`; the fold agrees with the last value
written for `A`; and a line `nocolon` aborts with `MalformedHeaderLine`. -/
theorem parseHeaders_header_lines_witness :
    parseHeaders (encodeHeaders [("A", "1"), ("B", "2"), ("A", "3")] ++ '\n' :: []) [] =
      .ok ([("A", "3"), ("B", "2")], []) ∧
    mapGet ([("A", "1"), ("B", "2"), ("A", "3")].foldl (fun m p => mapSet m p.1 p.2) []) "A" =
      lastValue [("A", "1"), ("B", "2"), ("A", "3")] "A" ∧
    parseHeaders (encodeHeaders [("A", "1")] ++ "nocolon".data ++ '\n' :: []) [] =
      .err .malformedHeaderLine := by
  refine ⟨?_, ?_, ?_⟩
  · exact (parseHeaders_header_lines.1 [("A", "1"), ("B", "2"), ("A", "3")] [] []
      (by decide)).trans (by decide)
  · exact parseHeaders_header_lines.2.1 [("A", "1"), ("B", "2"), ("A", "3")] "A"
  · exact parseHeaders_header_lines.2.2 [("A", "1")] "nocolon".data [] []
      (by decide) (by decide) (by decide) (by decide)

/-- C6 (confirmed): a request line whose trimmed form does not split on
single spaces into exactly three tokens yields `MalformedRequestLine` (and
no panic); with exactly three tokens, parsing proceeds with the first two
as method and target whatever they are, and the result does not depend on
the version token, which is neither validated nor stored. -/
theorem parseRequest_request_line_tokens :
    (∀ (l rest : List Char), '\n' ∉ l → (splitOnSp (trimSpace l)).length ≠ 3 →
       parseRequest (l ++ '\n' :: rest) = .err .malformedRequestLine) ∧
    (∀ (l rest method url ver : List Char), '\n' ∉ l →
       splitOnSp (trimSpace l) = [method, url, ver] →
       parseRequest (l ++ '\n' :: rest) = parseAfterRequestLine method url rest) ∧
    (∀ (l1 l2 rest method url v1 v2 : List Char), '\n' ∉ l1 → '\n' ∉ l2 →
       splitOnSp (trimSpace l1) = [method, url, v1] →
       splitOnSp (trimSpace l2) = [method, url, v2] →
       parseRequest (l1 ++ '\n' :: rest) = parseRequest (l2 ++ '\n' :: rest)) :=
  ⟨fun l rest hl h3 => parseRequest_cons_ne3 l rest hl h3,
    fun l rest method url ver hl h3 => parseRequest_cons_eq3 l rest method url ver hl h3,
    fun l1 l2 rest method url v1 v2 hl1 hl2 h31 h32 =>
      (parseRequest_cons_eq3 l1 rest method url v1 hl1 h31).trans
        (parseRequest_cons_eq3 l2 rest method url v2 hl2 h32).symm⟩

/-- C6 (witness): the two-token request line `"GET /"` (sent as
`"GET /\r\n\r\n"`) yields `MalformedRequestLine`; the three-token line
`"GET / HTTP/1.1"` is accepted and parsing continues past the request
line. -/
theorem parseRequest_request_line_tokens_witness :
    parseRequest ("GET /\r".data ++ '\n' :: ['\n']) = .err .malformedRequestLine ∧
    parseRequest ("GET / HTTP/1.1".data ++ '\n' :: ['\n']) =
      parseAfterRequestLine "GET".data "/".data ['\n'] := by
  constructor
  · exact parseRequest_request_line_tokens.1 "GET /\r".data ['\n'] (by decide) (by decide)
  · exact parseRequest_request_line_tokens.2.1 "GET / HTTP/1.1".data ['\n']
      "GET".data "/".data "HTTP/1.1".data (by decide) (by decide)

/-- C10 (confirmed): the parser trims all leading and trailing white space
(tabs included, not only a trailing carriage return) from the request line
and from each header line before splitting, so a padded line parses like
the unpadded one; and a header line consisting only of white space
terminates the header section exactly like an empty line. -/
theorem parseRequest_trims_lines :
    (∀ (p1 p2 core rest : List Char),
       (∀ c ∈ p1, goIsSpace c ∧ c ≠ '\n') → (∀ c ∈ p2, goIsSpace c ∧ c ≠ '\n') →
       '\n' ∉ core →
       parseRequest (p1 ++ (core ++ p2) ++ '\n' :: rest) =
         parseRequest (core ++ '\n' :: rest)) ∧
    (∀ (p1 p2 core rest : List Char) (acc : HeaderMap),
       (∀ c ∈ p1, goIsSpace c ∧ c ≠ '\n') → (∀ c ∈ p2, goIsSpace c ∧ c ≠ '\n') →
       '\n' ∉ core →
       parseHeaders (p1 ++ (core ++ p2) ++ '\n' :: rest) acc =
         parseHeaders (core ++ '\n' :: rest) acc) ∧
    (∀ (ws rest : List Char) (acc : HeaderMap),
       (∀ c ∈ ws, goIsSpace c ∧ c ≠ '\n') →
       parseHeaders (ws ++ '\n' :: rest) acc = .ok (acc, rest)) := by
  have hnl : ∀ (p1 p2 core : List Char),
      (∀ c ∈ p1, goIsSpace c ∧ c ≠ '\n') → (∀ c ∈ p2, goIsSpace c ∧ c ≠ '\n') →
      '\n' ∉ core → '\n' ∉ p1 ++ (core ++ p2) := by
    intro p1 p2 core hp1 hp2 hc hmem
    rcases List.mem_append.mp hmem with h | h
    · exact (hp1 _ h).2 rfl
    · rcases List.mem_append.mp h with h | h
      · exact hc h
      · exact (hp2 _ h).2 rfl
  refine ⟨?_, ?_, ?_⟩
  · intro p1 p2 core rest hp1 hp2 hc
    exact parseRequest_trim_congr _ core rest (hnl p1 p2 core hp1 hp2 hc) hc
      (trimSpace_pad p1 core p2 (fun c h => (hp1 c h).1) (fun c h => (hp2 c h).1))
  · intro p1 p2 core rest acc hp1 hp2 hc
    exact parseHeaders_trim_congr _ core rest acc (hnl p1 p2 core hp1 hp2 hc) hc
      (trimSpace_pad p1 core p2 (fun c h => (hp1 c h).1) (fun c h => (hp2 c h).1))
  · intro ws rest acc hws
    exact parseHeaders_cons_empty ws rest acc (fun hmem => (hws _ hmem).2 rfl)
      (trimSpace_all_space fun c h => (hws c h).1)

/-- C10 (witness): a request line padded with a leading space, a tab, and a
trailing space parses exactly like the unpadded line, and a header line of
one tab and one space ends the header section like an empty line. -/
theorem parseRequest_trims_lines_witness :
    parseRequest ([' ', '\t'] ++ ("GET / HTTP/1.1".data ++ [' ']) ++ '\n' :: ['\n']) =
      parseRequest ("GET / HTTP/1.1".data ++ '\n' :: ['\n']) ∧
    parseHeaders (['\t', ' '] ++ '\n' :: []) [] = .ok ([], []) := by
  constructor
  · exact parseRequest_trims_lines.1 [' ', '\t'] [' '] "GET / HTTP/1.1".data ['\n']
      (by decide) (by decide) (by decide)
  · exact parseRequest_trims_lines.2.2 ['\t', ' '] [] [] (by decide)

end HttpLight
